import Mathlib

/-!
Verification of the multiview-recon capture core.

Shallow embedding of the RGB-D capture pipeline:
* depth normalize-and-filter (test_get_images.py, capture_rgbd_images),
* the foreground mask filter (new_image_geting.py, save_rgbd_with_mask),
* the packed binary depth-hint writer (test_get_images.py, save_image),
* the unique-directory resolver (get_images.py, get_save_dir),
* the capture-control loop (get_images.py, capture_rgbd_images).

Machine floats are modelled by exact rationals: every raw depth sample is a
16-bit natural, and division by 1000 together with the 5.0 cutoff is decided
identically by float32 arithmetic and by exact rationals on that domain
(the grid of representable quotients d/1000 has no point that rounds across
the 5.0 boundary).  Byte-level float32 samples are carried as their 32-bit
patterns.
-/

namespace MultiviewRecon

/-! ## Depth Normalizer / Filter (test_get_images.py lines 119-124)

`depth_aligned = raw.astype(np.float32) / 1000.0`
`depth_aligned[(depth_aligned <= 0) | (depth_aligned > 5.0)] = 0`
-/

/-- The fixed cutoff 5.0 m used by the reference filter. -/
def maxRange : ℚ := 5

/-- One sample of the normalize-and-filter step: raw millimeters (uint16)
to metric meters, zeroing invalid or out-of-range values. -/
def normalize (d : Nat) : ℚ :=
  if (d : ℚ) / 1000 ≤ 0 ∨ (d : ℚ) / 1000 > maxRange then 0 else (d : ℚ) / 1000

/-! ## Foreground Mask Filter (new_image_geting.py, save_rgbd_with_mask)

`depth_mask = (depth_image > -depth_threshold) & (depth_image < depth_threshold)`
`depth_mask = depth_mask.astype(np.uint8) * 255`
`color_mask = cv2.inRange(hsv, lower_green, upper_green)`
`combined_mask = cv2.bitwise_and(depth_mask, color_mask)`
`color_masked = cv2.bitwise_and(color_image, color_image, mask=combined_mask)`
`depth_masked = cv2.bitwise_and(depth_image, depth_image, mask=combined_mask)`
-/

/-- A 3-channel 8-bit color pixel in BGR channel order. -/
structure BGRPixel where
  b : Nat
  g : Nat
  r : Nat
deriving DecidableEq

/-- A pixel of the hue/saturation/value representation produced by
`cv2.cvtColor(color_image, cv2.COLOR_BGR2HSV)`. -/
structure HSVPixel where
  h : Nat
  s : Nat
  v : Nat
deriving DecidableEq

/-- `lower_green = np.array([35, 40, 40])`. -/
def lower_green : HSVPixel := ⟨35, 40, 40⟩

/-- `upper_green = np.array([85, 255, 255])`. -/
def upper_green : HSVPixel := ⟨85, 255, 255⟩

/-- `depth_threshold=800`, the default of `save_rgbd_with_mask`. -/
def depth_threshold : ℤ := 800

/-- The per-sample depth-range test `(d > -t) & (d < t)`.  NumPy compares the
uint16 sample with the Python scalar by value, so the sample is carried as an
integer. -/
def depth_pass (t d : ℤ) : Bool :=
  decide (d > -t) && decide (d < t)

/-- One sample of the depth mask: the Boolean test scaled by 255
(`depth_mask.astype(np.uint8) * 255`). -/
def depth_mask_px (t d : ℤ) : Nat :=
  (if depth_pass t d then 1 else 0) * 255

/-- One pixel of `cv2.inRange(hsv, lower_green, upper_green)`:
255 when every channel lies in the closed band, else 0. -/
def color_mask_px (p : HSVPixel) : Nat :=
  if (lower_green.h ≤ p.h && p.h ≤ upper_green.h)
      && (lower_green.s ≤ p.s && p.s ≤ upper_green.s)
      && (lower_green.v ≤ p.v && p.v ≤ upper_green.v)
  then 255 else 0

/-- One pixel of `cv2.bitwise_and(depth_mask, color_mask)`. -/
def combined_mask_px (t d : ℤ) (p : HSVPixel) : Nat :=
  Nat.land (depth_mask_px t d) (color_mask_px p)

/-- One pixel of `cv2.bitwise_and(color_image, color_image, mask=m)`:
where the mask is set the destination receives `src & src`, elsewhere it
keeps its zero initialization. -/
def masked_color_px (m : Nat) (c : BGRPixel) : BGRPixel :=
  if m ≠ 0 then ⟨Nat.land c.b c.b, Nat.land c.g c.g, Nat.land c.r c.r⟩ else ⟨0, 0, 0⟩

/-- One sample of `cv2.bitwise_and(depth_image, depth_image, mask=m)`;
`src & src = src` on the 16-bit sample, zero where the mask is clear. -/
def masked_depth_px (m : Nat) (d : ℤ) : ℤ :=
  if m ≠ 0 then d else 0

/-- Decimal digits of the index zero-padded to width 3, most significant
first: the digit string produced by the `%03d` format in the filenames. -/
def pad3_digits (i : Nat) : List Nat :=
  List.replicate (3 - (Nat.digits 10 i).length) 0 ++ (Nat.digits 10 i).reverse

/-- Content of one persisted file of the masking pipeline. -/
inductive FileData (P : Type)
  | colorFile (img : P → BGRPixel)
  | depthFile (img : P → ℤ)

/-- One file written by `save_rgbd_with_mask`: sub-directory under the save
root, filename, and image content. -/
structure FileOut (P : Type) where
  subdir : String
  index_digits : List Nat
  data : FileData P

/-- The four files written by `save_rgbd_with_mask` for one frame, pixels
indexed by `P`.  `bgr2hsv` is the external `cv2.cvtColor` collaborator. -/
def save_rgbd_with_mask (P : Type) (idx : Nat) (bgr2hsv : BGRPixel → HSVPixel)
    (color : P → BGRPixel) (depth : P → ℤ) (t : ℤ) : List (FileOut P) :=
  let combined : P → Nat := fun p => combined_mask_px t (depth p) (bgr2hsv (color p))
  let color_masked : P → BGRPixel := fun p => masked_color_px (combined p) (color p)
  let depth_masked : P → ℤ := fun p => masked_depth_px (combined p) (depth p)
  [ ⟨"raw_color", pad3_digits idx, .colorFile color⟩,
    ⟨"raw_depth", pad3_digits idx, .depthFile depth⟩,
    ⟨"mask_color", pad3_digits idx, .colorFile color_masked⟩,
    ⟨"mask_depth", pad3_digits idx, .depthFile depth_masked⟩ ]

/-! ## Binary depth-hint writer (test_get_images.py, save_image)

`f.write(struct.pack('Q', depth_hint.shape[1]))`  (width, 8 bytes LE)
`f.write(struct.pack('Q', depth_hint.shape[0]))`  (height, 8 bytes LE)
`depth_hint.astype(np.float32).tofile(f)`         (row-major float32 payload)

A float32 sample is carried as its 32-bit pattern (a natural below 2^32);
`tofile` emits its four bytes least significant first on the reference
little-endian platform.
-/

/-- The `k` little-endian bytes of `v`. -/
def leBytes : Nat → Nat → List Nat
  | 0, _ => []
  | k + 1, v => v % 256 :: leBytes k (v / 256)

/-- `struct.pack('Q', v)`: 8 little-endian bytes. -/
def packQ (v : Nat) : List Nat := leBytes 8 v

/-- The four little-endian bytes of one float32 bit pattern. -/
def packF32 (bits : Nat) : List Nat := leBytes 4 bits

/-- The exact byte content of one depth-hint file: width header, height
header, then the row-major float32 payload. -/
def write_depth_hint (w h : Nat) (samples : List Nat) : List Nat :=
  packQ w ++ packQ h ++ (samples.map packF32).flatten

/-- Read `k` little-endian bytes as one unsigned value, returning the value
and the remaining stream, or `none` if the stream is too short. -/
def readLE : Nat → List Nat → Option (Nat × List Nat)
  | 0, bs => some (0, bs)
  | _ + 1, [] => none
  | k + 1, b :: bs => (readLE k bs).map fun vr => (b + 256 * vr.1, vr.2)

/-- Read `n` float32 samples (4 bytes each). -/
def readSamples : Nat → List Nat → Option (List Nat × List Nat)
  | 0, bs => some ([], bs)
  | n + 1, bs =>
    match readLE 4 bs with
    | none => none
    | some (s, bs1) =>
      match readSamples n bs1 with
      | none => none
      | some (ss, bs2) => some (s :: ss, bs2)

/-- Re-read a depth-hint file per the fixed layout: 8-byte width, 8-byte
height, `w*h` samples, and nothing after them. -/
def read_depth_hint (bs : List Nat) : Option (Nat × Nat × List Nat) :=
  match readLE 8 bs with
  | none => none
  | some (w, bs1) =>
    match readLE 8 bs1 with
    | none => none
    | some (h, bs2) =>
      match readSamples (w * h) bs2 with
      | none => none
      | some (ss, rest) => if rest.isEmpty then some (w, h, ss) else none

/-! ## Unique-directory resolver (get_images.py, get_save_dir)

```
if not os.path.exists(base_dir): return base_dir
i = 1
while True:
    new_dir = f"{base_dir}_{i}"
    if not os.path.exists(new_dir): return new_dir
    i += 1
```

The filesystem is a Boolean existence predicate on names; the unbounded
`while True` is carried with explicit fuel, exhausted fuel yielding `none`.
-/

/-- The candidate name `f"{base_dir}_{i}"`. -/
def candName (base : String) (i : Nat) : String := base ++ "_" ++ toString i

/-- The probing loop: try `base_i`, `base_(i+1)`, ... -/
def findFree (ex : String → Bool) (base : String) : Nat → Nat → Option String
  | 0, _ => none
  | fuel + 1, i =>
    if ex (candName base i) then findFree ex base fuel (i + 1)
    else some (candName base i)

/-- `get_save_dir`: the base name itself when unused, otherwise the first
unused suffixed name starting from `_1`. -/
def get_save_dir (ex : String → Bool) (fuel : Nat) (base : String) : Option String :=
  if ex base then findFree ex base fuel 1 else some base

/-! ## Capture-control loop (get_images.py, capture_rgbd_images)

One loop iteration, in source order:
frames are pulled; a pair missing a channel triggers `continue` (before the
preview and before `waitKey`); otherwise the preview is shown, one key is
polled, the mode-specific capture decision runs, and finally `q` breaks.
The `try`/`finally` wrapper stops the pipeline and destroys the windows on
every exit from the loop.  Color frames are carried abstractly as `C`, the
wall-clock timestamps of `time.time()` as rationals.
-/

/-- The capture mode, selected once at session start. -/
inductive Mode
  | manual
  | automatic
deriving DecidableEq

/-- The mutable loop state: `image_index`, `last_capture_timestamp`, and the
previously captured color frame shown in the preview. -/
structure CaptureState (C : Type) where
  image_index : Nat
  last_capture_timestamp : ℚ
  previous_color : C
deriving DecidableEq

/-- The external observations of one loop iteration: either a frame pair
(with channel-presence flags, the polled key, and the current time), or an
exception raised during acquisition, processing or writing. -/
inductive IterInput (C : Type)
  | frame (colorOk depthOk : Bool) (color : C) (key : Nat) (timestamp : ℚ)
  | raise
deriving DecidableEq

/-- Observable events of a run. -/
inductive Event
  | save (index : Nat) (timestamp : ℚ)
  | poll (key : Nat)
  | pipelineStop
  | destroyWindows
deriving DecidableEq

/-- How one iteration ends: fall through to the next iteration, `break`, or
an exception propagating out of the loop body. -/
inductive StepResult (C : Type)
  | next (s : CaptureState C)
  | brk (s : CaptureState C)
  | err
deriving DecidableEq

/-- `ord(' ')`. -/
def spaceKey : Nat := 32

/-- `ord('q')`. -/
def quitKey : Nat := 113

/-- One iteration of the capture loop body. -/
def stepIter (C : Type) (mode : Mode) (interval : ℚ) (s : CaptureState C) :
    IterInput C → StepResult C × List Event
  | .raise => (.err, [])
  | .frame colorOk depthOk color key ts =>
    if colorOk && depthOk then
      let handled : CaptureState C × List Event :=
        match mode with
        | .manual =>
          if key = spaceKey then
            (⟨s.image_index + 1, s.last_capture_timestamp, color⟩,
              [.save s.image_index ts])
          else (s, [])
        | .automatic =>
          if ts - s.last_capture_timestamp ≥ interval then
            (⟨s.image_index + 1, ts, color⟩, [.save s.image_index ts])
          else (s, [])
      let evts := Event.poll key :: handled.2
      if key = quitKey then (.brk handled.1, evts) else (.next handled.1, evts)
    else (.next s, [])

/-- How a run of the loop ended: the index reached `num_images`, the user
quit, an exception escaped, or the modelled input stream ran out while the
loop was still going. -/
inductive Outcome
  | completed
  | quit
  | errored
  | starved
deriving DecidableEq

/-- The capture loop: `while image_index < num_images` over a finite stream
of iteration inputs. -/
def runLoop (C : Type) (mode : Mode) (interval : ℚ) (num_images : Nat) :
    CaptureState C → List (IterInput C) → Outcome × CaptureState C × List Event
  | s, [] =>
    if s.image_index < num_images then (.starved, s, []) else (.completed, s, [])
  | s, inp :: rest =>
    if s.image_index < num_images then
      match stepIter C mode interval s inp with
      | (.next s1, evts) =>
        let r := runLoop C mode interval num_images s1 rest
        (r.1, r.2.1, evts ++ r.2.2)
      | (.brk s1, evts) => (.quit, s1, evts)
      | (.err, evts) => (.errored, s, evts)
    else (.completed, s, [])

/-- The state at loop entry: index 0, timestamp reference 0, all-zero
previous color frame (`zero`). -/
def initState (C : Type) (zero : C) : CaptureState C := ⟨0, 0, zero⟩

/-- `capture_rgbd_images`: run the loop from the initial state, then — in
the `finally` block, on every termination path — stop the pipeline and
destroy the display windows. -/
def capture_rgbd_images (C : Type) (zero : C) (mode : Mode) (interval : ℚ)
    (num_images : Nat) (inputs : List (IterInput C)) :
    Outcome × CaptureState C × List Event :=
  let r := runLoop C mode interval num_images (initState C zero) inputs
  (r.1, r.2.1, r.2.2 ++ [.pipelineStop, .destroyWindows])

/-- The indices of the persisted samples of a trace, in order. -/
def savedIndices (tr : List Event) : List Nat :=
  tr.filterMap fun e => match e with | .save i _ => some i | _ => none

/-- The timestamps of the persisted samples of a trace, in order. -/
def savedTimes (tr : List Event) : List ℚ :=
  tr.filterMap fun e => match e with | .save _ ts => some ts | _ => none

/-- The number of key polls in a trace. -/
def pollCount (tr : List Event) : Nat :=
  (tr.filter fun e => match e with | .poll _ => true | _ => false).length

/-- The expected automatic-mode schedule stated by the capture-timing claim:
with reference time `last` (initially 0), a frame is captured exactly when
its timestamp is at least `last + interval`, and a capture moves the
reference to that timestamp.  Returns the captured timestamps in order. -/
def firstFrameAtOrAfter (interval : ℚ) : ℚ → List ℚ → List ℚ
  | _, [] => []
  | last, ts :: rest =>
    if ts ≥ last + interval then ts :: firstFrameAtOrAfter interval ts rest
    else firstFrameAtOrAfter interval last rest

/-- An automatic-mode input stream: every frame pair complete, no key
pressed, one frame per timestamp. -/
def autoInputs (C : Type) (c : C) (tss : List ℚ) : List (IterInput C) :=
  tss.map fun ts => .frame true true c 0 ts

/-! ## Theorems -/

/-- C1: for every 16-bit raw depth sample `d`, the normalize-and-filter step
yields 0 exactly when `d ≤ 0` or `d/1000 > maxRange`, and otherwise yields
exactly `d/1000`; hence every resulting sample is 0 or lies in
`(0, maxRange]`. -/
theorem normalize_filter_correct (d : Nat) (hd : d < 65536) :
    (normalize d = 0 ↔ d ≤ 0 ∨ (d : ℚ) / 1000 > maxRange)
    ∧ (¬(d ≤ 0 ∨ (d : ℚ) / 1000 > maxRange) → normalize d = (d : ℚ) / 1000)
    ∧ (normalize d = 0 ∨ (0 < normalize d ∧ normalize d ≤ maxRange)) := by
  rcases Nat.eq_zero_or_pos d with h0 | hpos
  · subst h0
    norm_num [normalize]
  · have hdq : (0 : ℚ) < (d : ℚ) := by exact_mod_cast hpos
    have hm : (0 : ℚ) < (d : ℚ) / 1000 := by positivity
    by_cases h5 : (d : ℚ) / 1000 > maxRange
    · have hout : normalize d = 0 := by
        unfold normalize
        rw [if_pos (Or.inr h5)]
      refine ⟨⟨fun _ => Or.inr h5, fun _ => hout⟩, fun hc => absurd (Or.inr h5) hc, Or.inl hout⟩
    · have hin : normalize d = (d : ℚ) / 1000 := by
        unfold normalize
        rw [if_neg]
        push_neg
        exact ⟨by linarith, by simpa using h5⟩
      have hne : ¬ (d ≤ 0 ∨ (d : ℚ) / 1000 > maxRange) := by
        push_neg
        exact ⟨by omega, by simpa using h5⟩
      refine ⟨⟨fun hz => absurd (hin ▸ hz) (by linarith), fun hc => absurd hc hne⟩,
        fun _ => hin, Or.inr ⟨hin ▸ hm, hin ▸ (by simpa using h5)⟩⟩

/-- Witness for `normalize_filter_correct` at the concrete sample 1234 mm. -/
theorem normalize_filter_correct_witness :
    normalize 1234 = (1234 : ℚ) / 1000 :=
  (normalize_filter_correct 1234 (by norm_num)).2.1 (by norm_num [maxRange])

/-- C5: the depth-range mask bit is set (255) exactly when `-t < d < t`,
clear (0) otherwise; in particular both boundary samples `d = t` and
`d = -t` fail the test.  The default threshold is 800 native units. -/
theorem depth_mask_symmetric_range (d t : ℤ) :
    (depth_mask_px t d = 255 ↔ (-t < d ∧ d < t))
    ∧ (depth_mask_px t d = 0 ↔ ¬(-t < d ∧ d < t))
    ∧ depth_mask_px t t = 0 ∧ depth_mask_px t (-t) = 0
    ∧ depth_threshold = 800 := by
  have hb : ∀ x : ℤ, depth_mask_px t x = if (-t < x ∧ x < t) then 255 else 0 := by
    intro x
    simp only [depth_mask_px, depth_pass, gt_iff_lt, Bool.and_eq_true, decide_eq_true_eq]
    by_cases hx : -t < x ∧ x < t
    · rw [if_pos hx, if_pos hx]
    · rw [if_neg hx, if_neg hx]
  refine ⟨?_, ?_, ?_, ?_, rfl⟩
  · rw [hb d]
    split_ifs with h
    · simp [h]
    · simp [h]
  · rw [hb d]
    split_ifs with h
    · simp [h]
    · simp [h]
  · rw [hb t]
    simp
  · rw [hb (-t)]
    simp

/-- C10: on unsigned 16-bit samples with a positive threshold, the symmetric
test `(d > -t) ∧ (d < t)` coincides with the one-sided test `d < t`, both as
a Boolean and on the 255-valued mask. -/
theorem depth_mask_one_sided (d : Nat) (t : ℤ) (hd : d < 65536) (ht : 0 < t) :
    depth_pass t (d : ℤ) = decide ((d : ℤ) < t)
    ∧ depth_mask_px t (d : ℤ) = (if (d : ℤ) < t then 255 else 0) := by
  have hlow : -t < (d : ℤ) := by
    have : (0 : ℤ) ≤ (d : ℤ) := Int.natCast_nonneg d
    omega
  constructor
  · simp [depth_pass, hlow]
  · have h1 : decide (-t < (d : ℤ)) = true := by simpa using hlow
    simp only [depth_mask_px, depth_pass, gt_iff_lt, h1, Bool.true_and]
    by_cases h : (d : ℤ) < t
    · simp [h]
    · simp [h]

/-- Witness for `depth_mask_one_sided` at sample 500, threshold 800. -/
theorem depth_mask_one_sided_witness :
    depth_pass 800 (500 : ℤ) = decide ((500 : ℤ) < 800) :=
  (depth_mask_one_sided 500 800 (by norm_num) (by norm_num)).1

/-- The color mask, like the depth mask, only takes the values 0 and 255. -/
theorem color_mask_px_cases (p : HSVPixel) :
    color_mask_px p = 0 ∨ color_mask_px p = 255 := by
  unfold color_mask_px
  split_ifs <;> simp

/-- C6: the combined foreground mask is the pixel-wise AND of the 255-valued
depth-range mask and the green chroma-key mask (hue 35–85, saturation and
value 40–255); each masked color/depth pixel is the raw pixel where the
combined mask is set and zero elsewhere; and the raw pair is persisted
alongside the masked pair under four pairwise-distinct sub-paths. -/
theorem mask_pipeline_correct (P : Type) (idx : Nat)
    (bgr2hsv : BGRPixel → HSVPixel) (color : P → BGRPixel) (depth : P → ℤ) (t : ℤ) :
    (∀ p : HSVPixel, color_mask_px p = 255 ↔
      (35 ≤ p.h ∧ p.h ≤ 85 ∧ 40 ≤ p.s ∧ p.s ≤ 255 ∧ 40 ≤ p.v ∧ p.v ≤ 255))
    ∧ (∀ (d : ℤ) (p : HSVPixel), combined_mask_px t d p =
        if depth_pass t d = true ∧ color_mask_px p = 255 then 255 else 0)
    ∧ save_rgbd_with_mask P idx bgr2hsv color depth t =
      [ ⟨"raw_color", pad3_digits idx, .colorFile color⟩,
        ⟨"raw_depth", pad3_digits idx, .depthFile depth⟩,
        ⟨"mask_color", pad3_digits idx, .colorFile fun p =>
          if combined_mask_px t (depth p) (bgr2hsv (color p)) ≠ 0 then color p
          else ⟨0, 0, 0⟩⟩,
        ⟨"mask_depth", pad3_digits idx, .depthFile fun p =>
          if combined_mask_px t (depth p) (bgr2hsv (color p)) ≠ 0 then depth p
          else 0⟩ ]
    ∧ List.Pairwise (· ≠ ·)
        ((save_rgbd_with_mask P idx bgr2hsv color depth t).map FileOut.subdir) := by
  have hmaskc : ∀ (m : Nat) (c : BGRPixel),
      masked_color_px m c = if m ≠ 0 then c else ⟨0, 0, 0⟩ := by
    intro m c
    have hand : ∀ n : Nat, Nat.land n n = n := fun n => Nat.and_self n
    unfold masked_color_px
    split_ifs with h
    · rw [hand, hand, hand]
    · rfl
  refine ⟨?_, ?_, ?_, ?_⟩
  · intro p
    simp only [color_mask_px, lower_green, upper_green]
    split_ifs with h
    · simp only [Bool.and_eq_true, decide_eq_true_eq] at h
      simp only [true_iff]
      tauto
    · simp only [Bool.and_eq_true, decide_eq_true_eq, not_and_or] at h
      norm_num
      omega
  · intro d p
    unfold combined_mask_px depth_mask_px
    rcases color_mask_px_cases p with hp | hp <;> rw [hp] <;>
      by_cases hd : depth_pass t d <;> simp [hd] <;> decide
  · unfold save_rgbd_with_mask
    refine congrArg₂ _ rfl (congrArg₂ _ rfl (congrArg₂ _ ?_ (congrArg₂ _ ?_ rfl)))
    · refine congrArg _ (congrArg _ ?_)
      funext p
      exact hmaskc _ _
    · refine congrArg _ (congrArg _ ?_)
      funext p
      unfold masked_depth_px
      rfl
  · unfold save_rgbd_with_mask
    simp only [List.map_cons, List.map_nil]
    decide

/-- `leBytes` always produces exactly `k` bytes. -/
theorem leBytes_length (k v : Nat) : (leBytes k v).length = k := by
  induction k generalizing v with
  | zero => rfl
  | succ k ih => simp [leBytes, ih]

/-- Every output of `leBytes` is a byte. -/
theorem leBytes_lt_256 (k v : Nat) : ∀ b ∈ leBytes k v, b < 256 := by
  induction k generalizing v with
  | zero => simp [leBytes]
  | succ k ih =>
    intro b hb
    simp only [leBytes, List.mem_cons] at hb
    rcases hb with hb | hb
    · subst hb
      exact Nat.mod_lt _ (by norm_num)
    · exact ih _ _ hb

/-- Reading back `k` little-endian bytes of a value below `256^k` recovers
the value and leaves the rest of the stream untouched. -/
theorem readLE_leBytes (k v : Nat) (rest : List Nat) (hv : v < 256 ^ k) :
    readLE k (leBytes k v ++ rest) = some (v, rest) := by
  induction k generalizing v with
  | zero =>
    have : v = 0 := Nat.lt_one_iff.mp (by simpa using hv)
    subst this
    rfl
  | succ k ih =>
    have hdiv : v / 256 < 256 ^ k := by
      rw [Nat.div_lt_iff_lt_mul (by norm_num)]
      calc v < 256 ^ (k + 1) := hv
        _ = 256 ^ k * 256 := by ring
    show (readLE k (leBytes k (v / 256) ++ rest)).map
        (fun vr => (v % 256 + 256 * vr.1, vr.2)) = some (v, rest)
    rw [ih (v / 256) hdiv]
    exact congrArg some (congrArg (·, rest) (Nat.mod_add_div v 256))

/-- Reading back `samples.length` float32 samples from their concatenated
little-endian bytes recovers every sample bit-for-bit. -/
theorem readSamples_payload (samples : List Nat) (rest : List Nat)
    (hs : ∀ s ∈ samples, s < 2 ^ 32) :
    readSamples samples.length ((samples.map packF32).flatten ++ rest) =
      some (samples, rest) := by
  induction samples with
  | nil => rfl
  | cons s ss ih =>
    have hs0 : s < 256 ^ 4 := by
      have := hs s (List.mem_cons_self s ss)
      norm_num at this ⊢
      exact this
    have hss : ∀ x ∈ ss, x < 2 ^ 32 := fun x hx => hs x (List.mem_cons_of_mem s hx)
    show (match readLE 4 (packF32 s ++ ((List.map packF32 ss).flatten ++ rest)) with
      | none => none
      | some (a, bs1) =>
        match readSamples ss.length bs1 with
        | none => none
        | some (as, bs2) => some (a :: as, bs2)) = some (s :: ss, rest)
    rw [packF32, readLE_leBytes 4 s _ hs0]
    simp only [ih hss]

/-- The float32 payload occupies exactly 4 bytes per sample. -/
theorem payload_length (samples : List Nat) :
    ((samples.map packF32).flatten).length = 4 * samples.length := by
  induction samples with
  | nil => rfl
  | cons s ss ih =>
    simp only [List.map_cons, List.flatten_cons, List.length_append, ih, packF32,
      leBytes_length, List.length_cons]
    ring

/-- C4: the depth-hint writer emits exactly the 8-byte little-endian width,
the 8-byte little-endian height, and the `W*H` 4-byte float32 samples in
order — `16 + 4*W*H` bytes, no padding, no trailing data — and re-reading a
written file per this layout reproduces `W`, `H` and every sample
bit-for-bit. -/
theorem depth_hint_roundtrip (w h : Nat) (samples : List Nat)
    (hw : w < 2 ^ 64) (hh : h < 2 ^ 64) (hs : ∀ s ∈ samples, s < 2 ^ 32)
    (hlen : samples.length = w * h) :
    read_depth_hint (write_depth_hint w h samples) = some (w, h, samples)
    ∧ (write_depth_hint w h samples).length = 16 + 4 * (w * h)
    ∧ write_depth_hint w h samples =
        packQ w ++ packQ h ++ (samples.map packF32).flatten
    ∧ (∀ b ∈ write_depth_hint w h samples, b < 256) := by
  have hw8 : w < 256 ^ 8 := by norm_num at hw ⊢; exact hw
  have hh8 : h < 256 ^ 8 := by norm_num at hh ⊢; exact hh
  refine ⟨?_, ?_, rfl, ?_⟩
  · have hpay : readSamples (w * h) ((samples.map packF32).flatten ++ []) =
        some (samples, []) := by
      rw [← hlen]
      exact readSamples_payload samples [] hs
    rw [List.append_nil] at hpay
    simp only [read_depth_hint, write_depth_hint, packQ, List.append_assoc,
      readLE_leBytes 8 w _ hw8, Option.bind_some, readLE_leBytes 8 h _ hh8,
      hpay, List.isEmpty_nil, if_true]
  · simp only [write_depth_hint, List.length_append, packQ, leBytes_length,
      payload_length, hlen]
  · intro b hb
    simp only [write_depth_hint, packQ, List.mem_append] at hb
    rcases hb with (hb | hb) | hb
    · exact leBytes_lt_256 8 w b hb
    · exact leBytes_lt_256 8 h b hb
    · rcases List.mem_flatten.mp hb with ⟨l, hl, hbl⟩
      rcases List.mem_map.mp hl with ⟨s, _, rfl⟩
      exact leBytes_lt_256 4 s b hbl

/-- Witness for `depth_hint_roundtrip`: a concrete 2×1 map whose samples are
the float32 bit patterns of 1.5 and 0.0. -/
theorem depth_hint_roundtrip_witness :
    read_depth_hint (write_depth_hint 2 1 [1069547520, 0]) =
      some (2, 1, [1069547520, 0]) :=
  (depth_hint_roundtrip 2 1 [1069547520, 0] (by norm_num) (by norm_num)
    (by intro s hs; simp only [List.mem_cons, List.not_mem_nil, or_false] at hs
        rcases hs with rfl | rfl <;> norm_num)
    (by simp)).1

/-- The probing loop lands on the least free index at or above its start. -/
theorem findFree_least (ex : String → Bool) (base : String) (j : Nat) :
    ∀ (fuel i : Nat), i ≤ j → j < i + fuel →
      ex (candName base j) = false →
      (∀ k, i ≤ k → k < j → ex (candName base k) = true) →
      findFree ex base fuel i = some (candName base j) := by
  intro fuel
  induction fuel with
  | zero => intro i hij hj _ _; omega
  | succ fuel ih =>
    intro i hij hj hfree hbusy
    by_cases hi : i = j
    · subst hi
      unfold findFree
      rw [if_neg (by simp [hfree])]
    · have hbusyi : ex (candName base i) = true := hbusy i le_rfl (by omega)
      unfold findFree
      rw [if_pos hbusyi]
      exact ih (i + 1) (by omega) (by omega) hfree fun k hk1 hk2 => hbusy k (by omega) hk2

/-- C7: the unique-directory resolver returns the base name when it is
unused, and otherwise `base_j` for the least positive `j` whose candidate
name is unused. -/
theorem get_save_dir_least (ex : String → Bool) (base : String) (j fuel : Nat)
    (hj1 : 1 ≤ j) (hfuel : j ≤ fuel)
    (hfree : ex (candName base j) = false)
    (hbusy : ∀ k, 1 ≤ k → k < j → ex (candName base k) = true) :
    (ex base = true → get_save_dir ex fuel base = some (candName base j))
    ∧ (ex base = false → get_save_dir ex fuel base = some base) := by
  constructor
  · intro hb
    unfold get_save_dir
    rw [if_pos hb]
    exact findFree_least ex base j fuel 1 hj1 (by omega) hfree hbusy
  · intro hb
    unfold get_save_dir
    rw [if_neg (by simp [hb])]

/-- A filesystem on which exactly `foo` and `foo_1` exist. -/
def fsFoo : String → Bool := fun s => s == "foo" || s == "foo_1"

/-- Witness for `get_save_dir_least`: with `foo` and `foo_1` on disk,
requesting `foo` yields `foo_2`. -/
theorem get_save_dir_least_witness :
    get_save_dir fsFoo 5 "foo" = some "foo_2" := by
  have h2 : candName "foo" 2 = "foo_2" := by decide
  rw [← h2]
  refine (get_save_dir_least fsFoo "foo" 2 5 (by norm_num) (by norm_num)
    (by decide) ?_).1 (by decide)
  intro k h1 hk
  have hk1 : k = 1 := by omega
  subst hk1
  decide

/-- The state the loop continues (or finishes) with after one iteration. -/
def stepState (C : Type) (r : StepResult C) (s : CaptureState C) : CaptureState C :=
  match r with
  | .next s1 => s1
  | .brk s1 => s1
  | .err => s

/-- Each iteration either persists nothing and leaves the index unchanged,
or persists exactly the sample carrying the current index and increments
the index by one. -/
theorem stepIter_save_spec (C : Type) (mode : Mode) (interval : ℚ)
    (s : CaptureState C) (inp : IterInput C) :
    (savedIndices (stepIter C mode interval s inp).2 = []
      ∧ (stepState C (stepIter C mode interval s inp).1 s).image_index = s.image_index)
    ∨ (savedIndices (stepIter C mode interval s inp).2 = [s.image_index]
      ∧ (stepState C (stepIter C mode interval s inp).1 s).image_index
          = s.image_index + 1) := by
  cases inp with
  | raise => exact Or.inl ⟨rfl, rfl⟩
  | frame cOk dOk c k ts =>
    by_cases hok : (cOk && dOk) = true
    · cases mode with
      | manual =>
        by_cases hsp : k = 32 <;> by_cases hq : k = 113 <;>
          simp [stepIter, hok, hsp, hq, stepState, savedIndices, spaceKey, quitKey]
      | automatic =>
        by_cases hcap : ts - s.last_capture_timestamp ≥ interval <;>
          by_cases hq : k = 113 <;>
            simp [stepIter, hok, hcap, hq, stepState, savedIndices, spaceKey, quitKey]
    · simp [stepIter, hok, stepState, savedIndices]

/-- `savedIndices` distributes over trace concatenation. -/
theorem savedIndices_append (l1 l2 : List Event) :
    savedIndices (l1 ++ l2) = savedIndices l1 ++ savedIndices l2 := by
  simp [savedIndices]

/-- Over any run of the loop, the persisted indices are exactly the
consecutive block from the entry index up to (excluding) the final index. -/
theorem runLoop_saved_range (C : Type) (mode : Mode) (interval : ℚ) (num : Nat) :
    ∀ (inputs : List (IterInput C)) (s : CaptureState C),
      s.image_index ≤ (runLoop C mode interval num s inputs).2.1.image_index
      ∧ savedIndices (runLoop C mode interval num s inputs).2.2 =
          List.range' s.image_index
            ((runLoop C mode interval num s inputs).2.1.image_index - s.image_index) := by
  intro inputs
  induction inputs with
  | nil =>
    intro s
    unfold runLoop
    split_ifs <;> simp [savedIndices]
  | cons inp rest ih =>
    intro s
    by_cases hrun : s.image_index < num
    · have hstep := stepIter_save_spec C mode interval s inp
      unfold runLoop
      rw [if_pos hrun]
      rcases hs : stepIter C mode interval s inp with ⟨res, evts⟩
      rw [hs] at hstep
      cases res with
      | next s1 =>
        obtain ⟨hle, hsaved⟩ := ih s1
        dsimp only
        dsimp only [stepState] at hstep
        rcases hstep with ⟨hevts, hidx⟩ | ⟨hevts, hidx⟩
        · constructor
          · omega
          · rw [savedIndices_append, hevts, List.nil_append, hsaved, hidx]
        · constructor
          · omega
          · rw [savedIndices_append, hevts, hsaved, hidx, List.singleton_append]
            have h1 : (runLoop C mode interval num s1 rest).2.1.image_index -
                s.image_index =
                ((runLoop C mode interval num s1 rest).2.1.image_index -
                  (s.image_index + 1)) + 1 := by omega
            rw [h1, List.range'_succ]
      | brk s1 =>
        dsimp only
        dsimp only [stepState] at hstep
        rcases hstep with ⟨hevts, hidx⟩ | ⟨hevts, hidx⟩
        · refine ⟨by omega, ?_⟩
          rw [hevts, hidx]
          simp
        · refine ⟨by omega, ?_⟩
          rw [hevts, hidx]
          have h1 : s.image_index + 1 - s.image_index = 1 := by omega
          rw [h1]
          simp [List.range'_succ]
      | err =>
        dsimp only
        dsimp only [stepState] at hstep
        rcases hstep with ⟨hevts, _⟩ | ⟨_, hidx⟩
        · refine ⟨le_refl _, ?_⟩
          rw [hevts]
          simp
        · omega
    · unfold runLoop
      rw [if_neg hrun]
      simp [savedIndices]

/-- Leading zeros contribute nothing to the value of a digit string. -/
theorem ofDigits_replicate_zero (b : Nat) : ∀ n : Nat,
    Nat.ofDigits b (List.replicate n 0) = 0 := by
  intro n
  induction n with
  | zero => rfl
  | succ n ih => simp [List.replicate_succ, Nat.ofDigits_cons, ih]

/-- The zero-padded filename digits determine the index uniquely. -/
theorem pad3_digits_inj (i j : Nat) (h : pad3_digits i = pad3_digits j) : i = j := by
  have hof : ∀ m : Nat, Nat.ofDigits 10 ((pad3_digits m).reverse) = m := by
    intro m
    unfold pad3_digits
    rw [List.reverse_append, List.reverse_reverse, List.reverse_replicate,
      Nat.ofDigits_append, ofDigits_replicate_zero, Nat.ofDigits_digits]
    ring
  rw [← hof i, ← hof j, h]

/-- C2: in both modes the session index starts at 0, each persisted sample
receives the next index, skipped iterations (a missing channel) change
nothing, so the persisted indices of a session are exactly `0, 1, …, n-1`;
and the on-disk filename digits are a function of the index alone and
determine it uniquely. -/
theorem session_index_exact (C : Type) (zero : C) (mode : Mode) (interval : ℚ)
    (num : Nat) (inputs : List (IterInput C)) :
    (initState C zero).image_index = 0
    ∧ savedIndices (capture_rgbd_images C zero mode interval num inputs).2.2 =
        List.range (capture_rgbd_images C zero mode interval num inputs).2.1.image_index
    ∧ (∀ (s : CaptureState C) (cOk dOk : Bool) (c : C) (k : Nat) (ts : ℚ),
        stepIter C mode interval s (.frame false dOk c k ts) = (.next s, [])
        ∧ stepIter C mode interval s (.frame cOk false c k ts) = (.next s, []))
    ∧ (∀ i j : Nat, pad3_digits i = pad3_digits j → i = j) := by
  refine ⟨rfl, ?_, ?_, pad3_digits_inj⟩
  · have h := runLoop_saved_range C mode interval num inputs (initState C zero)
    unfold capture_rgbd_images
    simp only [savedIndices, List.filterMap_append] at h ⊢
    rw [h.2]
    show _ ++ List.filterMap _ [Event.pipelineStop, Event.destroyWindows] = _
    simp only [List.filterMap_cons, List.filterMap_nil, List.append_nil]
    rw [List.range_eq_range']
    rfl
  · intro s cOk dOk c k ts
    constructor
    · simp [stepIter]
    · have : (cOk && false) = false := by simp
      simp [stepIter, this]

/-- Witness for `session_index_exact`: a manual session over three frames,
the middle one missing its depth channel, persists exactly indices 0, 1. -/
theorem session_index_exact_witness :
    savedIndices (capture_rgbd_images Unit () .manual 1 5
      [.frame true true () spaceKey 0, .frame true false () spaceKey 1,
        .frame true true () spaceKey 2]).2.2 = List.range 2 :=
  (session_index_exact Unit () .manual 1 5
    [.frame true true () spaceKey 0, .frame true false () spaceKey 1,
      .frame true true () spaceKey 2]).2.1

/-- `savedTimes` distributes over trace concatenation. -/
theorem savedTimes_append (l1 l2 : List Event) :
    savedTimes (l1 ++ l2) = savedTimes l1 ++ savedTimes l2 := by
  simp [savedTimes]

/-- The automatic-mode iteration on a complete frame, written out: persist
exactly when the elapsed time reaches the interval (resetting the reference
and advancing the index), poll the key once, and break on the quit key. -/
theorem stepIter_auto_frame (C : Type) (interval : ℚ) (s : CaptureState C)
    (c : C) (k : Nat) (ts : ℚ) :
    stepIter C .automatic interval s (.frame true true c k ts) =
      if ts - s.last_capture_timestamp ≥ interval then
        (if k = quitKey then
          (.brk ⟨s.image_index + 1, ts, c⟩,
            [.poll k, .save s.image_index ts])
        else
          (.next ⟨s.image_index + 1, ts, c⟩,
            [.poll k, .save s.image_index ts]))
      else
        (if k = quitKey then (.brk s, [.poll k]) else (.next s, [.poll k])) := by
  by_cases h1 : ts - s.last_capture_timestamp ≥ interval <;>
    by_cases h2 : k = quitKey <;>
      simp [stepIter, h1, h2]

/-- Unfolding of the expected schedule on a non-empty timestamp list. -/
theorem firstFrameAtOrAfter_cons (interval last ts : ℚ) (rest : List ℚ) :
    firstFrameAtOrAfter interval last (ts :: rest) =
      if ts ≥ last + interval then ts :: firstFrameAtOrAfter interval ts rest
      else firstFrameAtOrAfter interval last rest := rfl

/-- In automatic mode over complete frames with no key pressed, the
persisted timestamps of a run follow the elapsed-interval schedule keyed to
the state's current reference time. -/
theorem runLoop_auto_schedule (C : Type) (c : C) (interval : ℚ) (num : Nat) :
    ∀ (tss : List ℚ) (s : CaptureState C), s.image_index + tss.length ≤ num →
      savedTimes (runLoop C .automatic interval num s (autoInputs C c tss)).2.2 =
        firstFrameAtOrAfter interval s.last_capture_timestamp tss := by
  intro tss
  induction tss with
  | nil =>
    intro s h
    unfold autoInputs runLoop
    simp only [List.map_nil]
    split_ifs <;> simp [savedTimes, firstFrameAtOrAfter]
  | cons ts rest ih =>
    intro s h
    have hlt : s.image_index < num := by
      simp only [List.length_cons] at h
      omega
    have hcons : autoInputs C c (ts :: rest)
        = .frame true true c 0 ts :: autoInputs C c rest := rfl
    rw [hcons]
    unfold runLoop
    rw [if_pos hlt]
    have hq : ¬ (0 = quitKey) := by simp [quitKey]
    by_cases hcap : ts - s.last_capture_timestamp ≥ interval
    · have hstep : stepIter C .automatic interval s (.frame true true c 0 ts)
          = (.next ⟨s.image_index + 1, ts, c⟩, [.poll 0, .save s.image_index ts]) := by
        rw [stepIter_auto_frame, if_pos hcap, if_neg hq]
      rw [hstep]
      dsimp only
      have hlen : (⟨s.image_index + 1, ts, c⟩ : CaptureState C).image_index
          + rest.length ≤ num := by
        show s.image_index + 1 + rest.length ≤ num
        simp only [List.length_cons] at h
        omega
      have hrec := ih ⟨s.image_index + 1, ts, c⟩ hlen
      rw [savedTimes_append, hrec]
      rw [firstFrameAtOrAfter_cons, if_pos (by linarith)]
      simp [savedTimes]
    · have hstep : stepIter C .automatic interval s (.frame true true c 0 ts)
          = (.next s, [.poll 0]) := by
        rw [stepIter_auto_frame, if_neg hcap, if_neg hq]
      rw [hstep]
      dsimp only
      have hrec := ih s (by
        simp only [List.length_cons] at h
        omega)
      rw [savedTimes_append, hrec]
      rw [firstFrameAtOrAfter_cons, if_neg (by intro hge; exact hcap (by linarith))]
      simp [savedTimes]

/-- C3: in automatic mode the timestamp reference starts at 0; a complete
frame is persisted exactly when its timestamp minus the reference is at
least the interval, the reference then being reset to that timestamp (and
the index advanced); and over a whole run the persisted timestamps are
exactly the "first frame at or after previous capture plus interval"
schedule with initial reference 0. -/
theorem auto_capture_schedule (C : Type) (zero : C) (c : C) (interval : ℚ)
    (num : Nat) (tss : List ℚ) (hnum : tss.length ≤ num) :
    (initState C zero).last_capture_timestamp = 0
    ∧ (∀ (s : CaptureState C) (k : Nat) (ts : ℚ),
        (interval ≤ ts - s.last_capture_timestamp →
          stepIter C .automatic interval s (.frame true true c k ts) =
            if k = quitKey then
              (.brk ⟨s.image_index + 1, ts, c⟩,
                [.poll k, .save s.image_index ts])
            else
              (.next ⟨s.image_index + 1, ts, c⟩,
                [.poll k, .save s.image_index ts]))
        ∧ (¬ interval ≤ ts - s.last_capture_timestamp →
          stepIter C .automatic interval s (.frame true true c k ts) =
            if k = quitKey then (.brk s, [.poll k]) else (.next s, [.poll k])))
    ∧ savedTimes (capture_rgbd_images C zero .automatic interval num
        (autoInputs C c tss)).2.2 = firstFrameAtOrAfter interval 0 tss := by
  refine ⟨rfl, ?_, ?_⟩
  · intro s k ts
    constructor <;> intro hc
    · rw [stepIter_auto_frame,
        if_pos (show ts - s.last_capture_timestamp ≥ interval from hc)]
    · rw [stepIter_auto_frame,
        if_neg (show ¬ ts - s.last_capture_timestamp ≥ interval from hc)]
  · unfold capture_rgbd_images
    dsimp only
    rw [savedTimes_append]
    have h := runLoop_auto_schedule C c interval num tss (initState C zero)
      (by show 0 + tss.length ≤ num; omega)
    rw [h]
    simp [savedTimes, initState, firstFrameAtOrAfter]

/-- Witness for `auto_capture_schedule`: interval 2 over timestamps
100, 101, 103 — the first frame and the first frame at least 2 later are
captured. -/
theorem auto_capture_schedule_witness :
    savedTimes (capture_rgbd_images Unit () .automatic 2 10
      (autoInputs Unit () [100, 101, 103])).2.2 =
      firstFrameAtOrAfter 2 0 [100, 101, 103] :=
  (auto_capture_schedule Unit () () 2 10 [100, 101, 103] (by norm_num)).2.2

/-- The loop body never emits a cleanup event. -/
theorem stepIter_no_cleanup (C : Type) (mode : Mode) (interval : ℚ)
    (s : CaptureState C) (inp : IterInput C) :
    Event.pipelineStop ∉ (stepIter C mode interval s inp).2
    ∧ Event.destroyWindows ∉ (stepIter C mode interval s inp).2 := by
  cases inp with
  | raise => simp [stepIter]
  | frame cOk dOk c k ts =>
    by_cases hok : (cOk && dOk) = true
    · cases mode <;> simp only [stepIter, hok, if_true] <;> split_ifs <;> simp
    · simp [stepIter, hok]

/-- No cleanup event arises anywhere inside the loop. -/
theorem runLoop_no_cleanup (C : Type) (mode : Mode) (interval : ℚ) (num : Nat) :
    ∀ (inputs : List (IterInput C)) (s : CaptureState C),
      Event.pipelineStop ∉ (runLoop C mode interval num s inputs).2.2
      ∧ Event.destroyWindows ∉ (runLoop C mode interval num s inputs).2.2 := by
  intro inputs
  induction inputs with
  | nil =>
    intro s
    unfold runLoop
    split_ifs <;> simp
  | cons inp rest ih =>
    intro s
    by_cases hrun : s.image_index < num
    · have hstep := stepIter_no_cleanup C mode interval s inp
      unfold runLoop
      rw [if_pos hrun]
      rcases hs : stepIter C mode interval s inp with ⟨res, evts⟩
      rw [hs] at hstep
      dsimp only at hstep
      cases res with
      | next s1 =>
        dsimp only
        constructor <;> rw [List.mem_append] <;> push_neg
        · exact ⟨hstep.1, (ih s1).1⟩
        · exact ⟨hstep.2, (ih s1).2⟩
      | brk s1 => exact hstep
      | err => exact hstep
    · unfold runLoop
      rw [if_neg hrun]
      simp

/-- C8: on every termination path — normal completion, user quit, or an
exception from acquisition, processing or writing — the trace of the run
ends with the pipeline stop and the window teardown, and each occurs
exactly once. -/
theorem cleanup_exactly_once (C : Type) (zero : C) (mode : Mode) (interval : ℚ)
    (num : Nat) (inputs : List (IterInput C)) :
    ((capture_rgbd_images C zero mode interval num inputs).2.2).count .pipelineStop = 1
    ∧ ((capture_rgbd_images C zero mode interval num inputs).2.2).count
        .destroyWindows = 1
    ∧ (capture_rgbd_images C zero mode interval num inputs).2.2 =
        (runLoop C mode interval num (initState C zero) inputs).2.2
          ++ [.pipelineStop, .destroyWindows] := by
  have h := runLoop_no_cleanup C mode interval num inputs (initState C zero)
  refine ⟨?_, ?_, rfl⟩
  · unfold capture_rgbd_images
    dsimp only
    rw [List.count_append, List.count_eq_zero.mpr h.1]
    rfl
  · unfold capture_rgbd_images
    dsimp only
    rw [List.count_append, List.count_eq_zero.mpr h.2]
    rfl

/-- Counterexample to C9 as stated: on an iteration whose frame pair is
missing the depth channel while the quit key is pressed, the key is never
polled (`continue` runs before `waitKey`) and the loop does not terminate
on that iteration — the run ends input-starved, not quit. -/
theorem quit_skip_counterexample :
    pollCount (capture_rgbd_images Unit () .manual 1 1
      [.frame true false () quitKey 0]).2.2 = 0
    ∧ (capture_rgbd_images Unit () .manual 1 1
        [.frame true false () quitKey 0]).1 = .starved := by
  constructor <;> rfl

/-- C9 (amended): the quit signal is polled exactly once on every iteration
whose frame pair has both channels, and such an iteration with the quit key
pressed breaks the loop at once; an iteration missing a channel is skipped
with no poll and no state change. -/
theorem quit_polled_on_complete_iterations (C : Type) (mode : Mode)
    (interval : ℚ) (s : CaptureState C) (cOk dOk : Bool) (c : C) (k : Nat)
    (ts : ℚ) :
    ((cOk && dOk) = true →
      pollCount (stepIter C mode interval s (.frame cOk dOk c k ts)).2 = 1
      ∧ (k = quitKey → ∃ s1,
          (stepIter C mode interval s (.frame cOk dOk c k ts)).1 = .brk s1))
    ∧ ((cOk && dOk) = false →
      stepIter C mode interval s (.frame cOk dOk c k ts) = (.next s, []))
    ∧ (∀ (num : Nat) (rest : List (IterInput C)) (inp : IterInput C)
        (s1 : CaptureState C) (evts : List Event),
        s.image_index < num → stepIter C mode interval s inp = (.brk s1, evts) →
        runLoop C mode interval num s (inp :: rest) = (.quit, s1, evts)) := by
  refine ⟨fun hok => ⟨?_, fun hqk => ?_⟩, fun hnok => ?_,
    fun num rest inp s1 evts hlt hstep => ?_⟩
  · cases mode <;> simp only [stepIter, hok, if_true] <;> split_ifs <;>
      simp [pollCount]
  · subst hqk
    cases mode <;> simp only [stepIter, hok, if_true] <;> split_ifs <;>
      exact ⟨_, rfl⟩
  · have : (cOk && dOk) ≠ true := by simp [hnok]
    simp [stepIter, this]
  · unfold runLoop
    rw [if_pos hlt, hstep]

/-- Witness for `quit_polled_on_complete_iterations`: a complete frame with
the quit key pressed is polled exactly once. -/
theorem quit_polled_witness :
    pollCount (stepIter Unit .manual 1 (initState Unit ())
      (.frame true true () quitKey 0)).2 = 1 :=
  ((quit_polled_on_complete_iterations Unit .manual 1 (initState Unit ())
    true true () quitKey 0).1 rfl).1

end MultiviewRecon
